import Mathlib

/-!
Verification development for `scripts/check_conventions.py`, a static
convention checker for a C-family codebase.  The Python source is embedded
shallowly: file contents are `List Char` (ASCII text; the Python `str`
character predicates `isupper`, `islower`, `isalnum` and the regex classes
`\w`, `\s`, `\d` are modelled by their ASCII restrictions), the regular
expressions of the source are embedded as values of a small pattern type
`RE` interpreted by a backtracking matcher with Python `re` semantics
(leftmost match, greedy quantifiers, alternation priority left to right,
`finditer` scanning), and fallible operations return `Except`/`Option`.
-/

/-- Python `\s` on ASCII text: space, tab, newline, carriage return,
vertical tab, form feed. -/
def wsChar (c : Char) : Bool :=
  c == ' ' || c == '\t' || c == '\n' || c == '\r' || c == '\x0b' || c == '\x0c'

/-- Python `\w` (a word character) on ASCII text: letter, digit or underscore. -/
def wordChar (c : Char) : Bool :=
  c.isAlphanum || c == '_'

/-- First character class of an identifier: `[A-Za-z_]`. -/
def identStartChar (c : Char) : Bool :=
  c.isAlpha || c == '_'

/-- Character class listing explicit characters, e.g. `[{;:]`. -/
def oneOf (s : List Char) (c : Char) : Bool :=
  s.contains c

/-- Decimal rendering of a natural number, as Python `str(n)` / f-string
interpolation produces for a nonnegative int. -/
def natStr (n : Nat) : List Char :=
  (Nat.repr n).data

/-- Python `str.startswith` on list-of-char strings (first argument is the
candidate prefix). -/
def hasPrefixL : List Char → List Char → Bool
  | [], _ => true
  | _ :: _, [] => false
  | p :: ps, c :: cs => p == c && hasPrefixL ps cs

/-- Python `str.endswith` on list-of-char strings (first argument is the
candidate suffix). -/
def hasSuffixL (s : List Char) (str : List Char) : Bool :=
  hasPrefixL s.reverse str.reverse

/-- Python substring containment `needle in haystack` (second argument is the
needle). -/
def containsSub : List Char → List Char → Bool
  | [], needle => hasPrefixL needle []
  | c :: cs, needle => hasPrefixL needle (c :: cs) || containsSub cs needle

/-- Patterns of the Python `re` module used by the checker, as an inductive
syntax: character classes, concatenation, alternation (priority to the left
branch), greedy Kleene star, greedy option, a single capturing group, the
word boundary `\b` and the MULTILINE line anchor `^`. -/
inductive RE where
  | eps : RE
  | cls : (Char → Bool) → RE
  | seq : RE → RE → RE
  | alt : RE → RE → RE
  | star : RE → RE
  | group : RE → RE
  | wordB : RE
  | bol : RE

/-- Concatenation of a list of patterns. -/
def RE.cat (rs : List RE) : RE :=
  rs.foldr RE.seq RE.eps

/-- A literal string pattern. -/
def RE.lit (s : List Char) : RE :=
  s.foldr (fun c r => RE.seq (RE.cls (fun d => d == c)) r) RE.eps

/-- Greedy `r?`. -/
def RE.opt (r : RE) : RE :=
  RE.alt r RE.eps

/-- Greedy `r+`. -/
def RE.plus (r : RE) : RE :=
  RE.seq r (RE.star r)

/-- Alternation over a list, priority in list order (Python `a|b|c`). -/
def RE.altList : List RE → RE
  | [] => RE.cls (fun _ => false)
  | [r] => r
  | r :: rs => RE.alt r (RE.altList rs)

/-- Whether the character at index `i` of `content` is a word character
(out-of-range counts as not a word character). -/
def charAtIsWord (content : List Char) (i : Nat) : Bool :=
  match content.get? i with
  | some c => wordChar c
  | none => false

/-- Python `\b`: a word boundary sits at `i` when exactly one of the
character before `i` and the character at `i` is a word character. -/
def wordBoundaryAt (content : List Char) (i : Nat) : Bool :=
  (if i = 0 then false else charAtIsWord content (i - 1)) != charAtIsWord content i

/-- Python MULTILINE `^`: start of the text or right after a newline. -/
def bolAt (content : List Char) (i : Nat) : Bool :=
  i == 0 || content.get? (i - 1) == some '\n'

/-- Structural size of a pattern, used to compute a sufficient recursion
budget for the matcher. -/
def reSize : RE → Nat
  | .eps => 1
  | .cls _ => 1
  | .wordB => 1
  | .bol => 1
  | .seq a b => 1 + reSize a + reSize b
  | .alt a b => 1 + reSize a + reSize b
  | .star r => 1 + reSize r
  | .group r => 1 + reSize r

/-- Backtracking matcher: all ways pattern `r` can match `content` anchored at
offset `i`, as pairs (end offset, capture span of group 1), listed in Python's
backtracking priority order (greedy quantifiers, left alternative first).
The star only iterates on body matches that consume at least one character,
which is how Python's engine behaves on the patterns of the source (no
starred sub-pattern there matches empty).  `fuel` is spent one unit per
recursive call; along every call edge the measure
`reSize subpattern + totalSize * (length - offset)` strictly decreases (the
offset never moves left, star re-entry consumes at least one character), so
any fuel of at least `(reSize r + 1) * (content.length + 2)` makes the `0`
case unreachable. -/
def reMatch : Nat → RE → List Char → Nat → Option (Nat × Nat) →
    List (Nat × Option (Nat × Nat))
  | 0, _, _, _, _ => []
  | fuel + 1, r, content, i, cap =>
    match r with
    | .eps => [(i, cap)]
    | .cls p =>
        (match content.get? i with
         | some c => if p c then [(i + 1, cap)] else []
         | none => [])
    | .seq a b =>
        (reMatch fuel a content i cap).flatMap (fun q => reMatch fuel b content q.1 q.2)
    | .alt a b =>
        reMatch fuel a content i cap ++ reMatch fuel b content i cap
    | .star r =>
        ((reMatch fuel r content i cap).filter (fun q => i < q.1)).flatMap
          (fun q => reMatch fuel (.star r) content q.1 q.2) ++ [(i, cap)]
    | .group r =>
        (reMatch fuel r content i cap).map (fun q => (q.1, some (i, q.1)))
    | .wordB => if wordBoundaryAt content i then [(i, cap)] else []
    | .bol => if bolAt content i then [(i, cap)] else []

/-- A match object: start offset, end offset and the span of capture
group 1, mirroring Python's `re.Match` as used by the checker. -/
structure RMatch where
  start : Nat
  stop : Nat
  cap : Option (Nat × Nat)
deriving DecidableEq, Repr

/-- The match attempt of pattern `r` anchored at offset `i`: Python keeps the
head of the priority list.  The fuel is the sufficient budget described at
`reMatch`. -/
def reSearchAt (r : RE) (content : List Char) (i : Nat) :
    List (Nat × Option (Nat × Nat)) :=
  reMatch ((reSize r + 1) * (content.length + 2)) r content i none

/-- Scanning loop of Python `finditer`: try each start offset left to right,
emit the match found there, resume after its end (advancing by one on an
empty match). -/
def reFinditerAux (r : RE) (content : List Char) : Nat → Nat → List RMatch
  | 0, _ => []
  | fuel + 1, i =>
      if i > content.length then []
      else
        match reSearchAt r content i with
        | [] => reFinditerAux r content fuel (i + 1)
        | q :: _ =>
            ⟨i, q.1, q.2⟩ :: reFinditerAux r content fuel (if q.1 = i then i + 1 else q.1)

/-- Python `pattern.finditer(content)`: the non-overlapping matches of `r` in
`content`, leftmost first. -/
def reFinditer (r : RE) (content : List Char) : List RMatch :=
  reFinditerAux r content (content.length + 2) 0

/-- The slice `content[a:b]`. -/
def sliceL (content : List Char) (a b : Nat) : List Char :=
  (content.drop a).take (b - a)

/-- `match.group(0)`: the full matched text. -/
def matchGroup0 (content : List Char) (m : RMatch) : List Char :=
  sliceL content m.start m.stop

/-- `match.group(1)`: the text of the capture (all patterns of the source
capture on every match; the `none` fallback is never taken on them). -/
def matchGroup1 (content : List Char) (m : RMatch) : List Char :=
  match m.cap with
  | some p => sliceL content p.1 p.2
  | none => []

/-- The regex `[A-Za-z_][A-Za-z0-9_]*`: a C identifier. -/
def identRE : RE :=
  RE.seq (RE.cls identStartChar) (RE.star (RE.cls wordChar))

/-- `STRUCT_PATTERN = \bstruct\s+([A-Za-z_][A-Za-z0-9_]*)\s*[{;:]`. -/
def STRUCT_PATTERN : RE :=
  RE.cat [RE.wordB, RE.lit "struct".data, RE.plus (RE.cls wsChar),
    RE.group identRE, RE.star (RE.cls wsChar), RE.cls (oneOf "\x7b;:".data)]

/-- `CLASS_PATTERN = \bclass\s+([A-Za-z_][A-Za-z0-9_]*)\s*[{;:]`. -/
def CLASS_PATTERN : RE :=
  RE.cat [RE.wordB, RE.lit "class".data, RE.plus (RE.cls wsChar),
    RE.group identRE, RE.star (RE.cls wsChar), RE.cls (oneOf "\x7b;:".data)]

/-- `ENUM_PATTERN = \benum\s+(?:class\s+)?([A-Za-z_][A-Za-z0-9_]*)\s*[{;:]`. -/
def ENUM_PATTERN : RE :=
  RE.cat [RE.wordB, RE.lit "enum".data, RE.plus (RE.cls wsChar),
    RE.opt (RE.cat [RE.lit "class".data, RE.plus (RE.cls wsChar)]),
    RE.group identRE, RE.star (RE.cls wsChar), RE.cls (oneOf "\x7b;:".data)]

/-- The pattern `\bnamespace\s+[A-Za-z_][A-Za-z0-9_]*\s*\{` compiled inside
`get_type_nesting_depth`. -/
def NAMESPACE_PATTERN : RE :=
  RE.cat [RE.wordB, RE.lit "namespace".data, RE.plus (RE.cls wsChar),
    identRE, RE.star (RE.cls wsChar), RE.cls (fun c => c == '\x7b')]

/-- `AUTO_VAR_PATTERN = \b(?:const\s+)?auto\s*[&*]?\s*([A-Za-z_][A-Za-z0-9_]*)\s*[=;,)\]]`. -/
def AUTO_VAR_PATTERN : RE :=
  RE.cat [RE.wordB, RE.opt (RE.cat [RE.lit "const".data, RE.plus (RE.cls wsChar)]),
    RE.lit "auto".data, RE.star (RE.cls wsChar), RE.opt (RE.cls (oneOf "&*".data)),
    RE.star (RE.cls wsChar), RE.group identRE, RE.star (RE.cls wsChar),
    RE.cls (oneOf "=;,)]".data)]

/-- `CONST_REF_VAR_PATTERN =
\bconst\s+[A-Za-z_][A-Za-z0-9_:]*(?:<[^>]*>)?\s*[&*]\s*([A-Za-z_][A-Za-z0-9_]*)\s*[=;,)\]]`. -/
def CONST_REF_VAR_PATTERN : RE :=
  RE.cat [RE.wordB, RE.lit "const".data, RE.plus (RE.cls wsChar),
    RE.cls identStartChar, RE.star (RE.cls (fun c => wordChar c || c == ':')),
    RE.opt (RE.cat [RE.cls (fun c => c == '<'), RE.star (RE.cls (fun c => !(c == '>'))),
      RE.cls (fun c => c == '>')]),
    RE.star (RE.cls wsChar), RE.cls (oneOf "&*".data), RE.star (RE.cls wsChar),
    RE.group identRE, RE.star (RE.cls wsChar), RE.cls (oneOf "=;,)]".data)]

/-- `BASIC_TYPES =
(?:int|bool|float|double|char|size_t|ssize_t|uint\d+_t|int\d+_t|unsigned|signed|long|short|void)\b`
(without the trailing `\b`, which `BASIC_TYPE_VAR_PATTERN` appends). -/
def BASIC_TYPES : RE :=
  RE.altList
    [RE.lit "int".data, RE.lit "bool".data, RE.lit "float".data, RE.lit "double".data,
     RE.lit "char".data, RE.lit "size_t".data, RE.lit "ssize_t".data,
     RE.cat [RE.lit "uint".data, RE.plus (RE.cls Char.isDigit), RE.lit "_t".data],
     RE.cat [RE.lit "int".data, RE.plus (RE.cls Char.isDigit), RE.lit "_t".data],
     RE.lit "unsigned".data, RE.lit "signed".data, RE.lit "long".data,
     RE.lit "short".data, RE.lit "void".data]

/-- `BASIC_TYPE_VAR_PATTERN = \b(?:const\s+)?(?:unsigned\s+|signed\s+)?` +
`BASIC_TYPES` + `\s*[&*]?\s*([A-Za-z_][A-Za-z0-9_]*)\s*[=;,)\[\]]`. -/
def BASIC_TYPE_VAR_PATTERN : RE :=
  RE.cat [RE.wordB, RE.opt (RE.cat [RE.lit "const".data, RE.plus (RE.cls wsChar)]),
    RE.opt (RE.alt (RE.cat [RE.lit "unsigned".data, RE.plus (RE.cls wsChar)])
      (RE.cat [RE.lit "signed".data, RE.plus (RE.cls wsChar)])),
    BASIC_TYPES, RE.wordB, RE.star (RE.cls wsChar), RE.opt (RE.cls (oneOf "&*".data)),
    RE.star (RE.cls wsChar), RE.group identRE, RE.star (RE.cls wsChar),
    RE.cls (oneOf "=;,)[]".data)]

/-- Characters of the class `[A-Za-z0-9_<>:,\s*&]` in `FUNCTION_PATTERN`. -/
def retTypeChar (c : Char) : Bool :=
  wordChar c || oneOf "<>:,*&".data c || wsChar c

/-- The repeated unit `[A-Za-z_][A-Za-z0-9_]*::` of `FUNCTION_PATTERN`. -/
def identColonColon : RE :=
  RE.cat [identRE, RE.lit "::".data]

/-- `FUNCTION_PATTERN` (MULTILINE):
`^\s*(?:(?:[A-Za-z_][A-Za-z0-9_<>:,\s*&]*\s+)(?:[A-Za-z_][A-Za-z0-9_]*::)*`
`|(?:[A-Za-z_][A-Za-z0-9_]*::)+)([A-Za-z_][A-Za-z0-9_]*)\s*\([^)]*\)\s*`
`(?:const\s*)?(?:override\s*)?(?:noexcept(?:\([^)]*\))?\s*)?\{`. -/
def FUNCTION_PATTERN : RE :=
  RE.cat
    [RE.bol, RE.star (RE.cls wsChar),
     RE.alt
       (RE.cat [RE.cls identStartChar, RE.star (RE.cls retTypeChar),
         RE.plus (RE.cls wsChar), RE.star identColonColon])
       (RE.plus identColonColon),
     RE.group identRE, RE.star (RE.cls wsChar),
     RE.cls (fun c => c == '('), RE.star (RE.cls (fun c => !(c == ')'))),
     RE.cls (fun c => c == ')'), RE.star (RE.cls wsChar),
     RE.opt (RE.cat [RE.lit "const".data, RE.star (RE.cls wsChar)]),
     RE.opt (RE.cat [RE.lit "override".data, RE.star (RE.cls wsChar)]),
     RE.opt (RE.cat [RE.lit "noexcept".data,
       RE.opt (RE.cat [RE.cls (fun c => c == '('), RE.star (RE.cls (fun c => !(c == ')'))),
         RE.cls (fun c => c == ')')]),
       RE.star (RE.cls wsChar)]),
     RE.cls (fun c => c == '\x7b')]

/-- The set `namespace_brace_positions` of `get_type_nesting_depth`: for each
match of `NAMESPACE_PATTERN`, the offset `match.end() - 1` of its opening
brace. -/
def namespaceBracePositions (content : List Char) : List Nat :=
  (reFinditer NAMESPACE_PATTERN content).map (fun m => m.stop - 1)

/-- One iteration of the character loop of `get_type_nesting_depth`: the state
is the running depth plus the stack `brace_stack` of booleans recording, per
open brace, whether it was a namespace brace; `ic` is (offset, character). -/
def depthStep (nsPos : List Nat) (s : Int × List Bool) (ic : Nat × Char) :
    Int × List Bool :=
  if ic.2 == '\x7b' then
    ((if nsPos.contains ic.1 then s.1 else s.1 + 1), nsPos.contains ic.1 :: s.2)
  else if ic.2 == '\x7d' then
    match s.2 with
    | [] => s
    | wasNs :: rest => ((if wasNs then s.1 else s.1 - 1), rest)
  else s

/-- `get_type_nesting_depth(content, pos)`: walk the characters before `pos`
maintaining a depth counter that ignores namespace braces.  The result is an
`Int` because the Python counter is a plain int. -/
def get_type_nesting_depth (content : List Char) (pos : Nat) : Int :=
  (((content.take pos).enum).foldl (depthStep (namespaceBracePositions content)) (0, [])).1

/-- Reference stack of enclosing braces at an offset, defined independently of
the depth counter: push the namespace flag of each open brace, pop on each
close brace (popping an empty stack is a no-op). -/
def braceStackStep (nsPos : List Nat) (st : List Bool) (ic : Nat × Char) : List Bool :=
  if ic.2 == '\x7b' then nsPos.contains ic.1 :: st
  else if ic.2 == '\x7d' then st.tail
  else st

/-- The flags (namespace brace or not) of the braces still open right before
offset `pos`. -/
def enclosingBraceFlags (content : List Char) (pos : Nat) : List Bool :=
  ((content.take pos).enum).foldl (braceStackStep (namespaceBracePositions content)) []

/-- `find_definitions(content, pattern)`: names of the matches whose matched
text ends in `{` or `:` (a true definition, not a forward declaration) and
whose start offset is at type nesting depth 0.  `match.group(0)` is nonempty
for every match of the source's patterns, so the `getLastD` default is never
taken where Python indexes `[-1]`. -/
def find_definitions (content : List Char) (pattern : RE) : List (List Char) :=
  (reFinditer pattern content).flatMap (fun m =>
    let name := matchGroup1 content m
    let end_char := (matchGroup0 content m).getLastD ' '
    if oneOf "\x7b:".data end_char then
      if get_type_nesting_depth content m.start = 0 then [name] else []
    else [])

/-- `os.path.basename`: the part of the path after the last `/`. -/
def basenameL (p : List Char) : List Char :=
  (p.reverse.takeWhile (fun c => !(c == '/'))).reverse

/-- Python `str.rfind('.')`: index of the last dot, if any. -/
def rfindDotIdx (s : List Char) : Option Nat :=
  ((s.enum.filter (fun ic => ic.2 == '.')).getLast?).map (fun ic => ic.1)

/-- `pathlib.PurePath(name).stem` on a final path component: strip the last
extension, where an extension needs a dot that is neither the first nor the
last character (pathlib's `0 < i < len(name) - 1` rule).  The pathlib
normalisation of the bare components `.` and `..` is not modelled; no name the
checker classifies is one of those. -/
def pyStem (s : List Char) : List Char :=
  match rfindDotIdx s with
  | none => s
  | some i => if 0 < i ∧ i < s.length - 1 then s.take i else s

/-- `is_camel_case(name)`: false for the empty name; otherwise take
`Path(name).stem` and require that the first character is not an uppercase
letter (`name[0].isupper()` fails) and that the stem contains no underscore.
On a nonempty slash-free name the stem is nonempty, so the `[]` stem arm
(where Python would raise `IndexError`) is unreachable. -/
def is_camel_case (name : List Char) : Bool :=
  match name with
  | [] => false
  | _ :: _ =>
    match pyStem (basenameL name) with
    | [] => false
    | c :: rest => !c.isUpper && !((c :: rest).contains '_')

/-- `is_pascal_case(name)`: false for the empty name; otherwise the first
character must not be a lowercase letter (`name[0].islower()` fails) and the
name must contain no underscore. -/
def is_pascal_case (name : List Char) : Bool :=
  match name with
  | [] => false
  | c :: _ => !c.isLower && !(name.contains '_')

/-- `', '.join(names)`. -/
def joinComma (names : List (List Char)) : List Char :=
  List.intercalate ", ".data names

/-- `filepath.endswith('.hpp') or filepath.endswith('.h')`. -/
def isHeaderPath (filepath : List Char) : Bool :=
  hasSuffixL ".hpp".data filepath || hasSuffixL ".h".data filepath

/-- `filepath.endswith('.cpp') or filepath.endswith('.c')`. -/
def isSourcePath (filepath : List Char) : Bool :=
  hasSuffixL ".cpp".data filepath || hasSuffixL ".c".data filepath

/-- `line_count = content.count('\n') + 1`. -/
def lineCount (content : List Char) : Nat :=
  content.count '\n' + 1

/-- `f"File has {line_count} lines (max 1000 allowed)"`. -/
def lengthMsg (n : Nat) : List Char :=
  "File has ".data ++ natStr n ++ " lines (max 1000 allowed)".data

/-- The file-length rule of `check_file`. -/
def lengthViolations (content : List Char) : List (List Char) :=
  if 1000 < lineCount content then [lengthMsg (lineCount content)] else []

/-- `f"File name '{filename}' should be camelCase"`. -/
def fileNameMsg (fn : List Char) : List Char :=
  "File name '".data ++ fn ++ "' should be camelCase".data

/-- The file-naming rule of `check_file`. -/
def fileNameViolations (filepath : List Char) : List (List Char) :=
  if is_camel_case (basenameL filepath) then [] else [fileNameMsg (basenameL filepath)]

/-- `structs = find_definitions(content, STRUCT_PATTERN)`. -/
def structsOf (content : List Char) : List (List Char) :=
  find_definitions content STRUCT_PATTERN

/-- `classes = find_definitions(content, CLASS_PATTERN)`. -/
def classesOf (content : List Char) : List (List Char) :=
  find_definitions content CLASS_PATTERN

/-- `enums = find_definitions(content, ENUM_PATTERN)`. -/
def enumsOf (content : List Char) : List (List Char) :=
  find_definitions content ENUM_PATTERN

/-- The dedup loop of `check_file` (a `seen` set plus an output list kept in
first-seen order), with the seen set as the extra argument. -/
def dedupFirstAux : List (List Char) → List (List Char) → List (List Char)
  | [], _ => []
  | t :: rest, seen =>
      if t ∈ seen then dedupFirstAux rest seen
      else t :: dedupFirstAux rest (t :: seen)

/-- `all_types`: struct, class and enum names concatenated, deduplicated
preserving first-seen order. -/
def all_types_of (content : List Char) : List (List Char) :=
  dedupFirstAux (structsOf content ++ classesOf content ++ enumsOf content) []

/-- `f"Header has {n} types (only 1 allowed): {', '.join(all_types)}"`. -/
def headerMsg (n : Nat) (names : List (List Char)) : List Char :=
  "Header has ".data ++ natStr n ++ " types (only 1 allowed): ".data ++ joinComma names

/-- `f"Source file has {n} type definitions (none allowed): {', '.join(all_types)}"`. -/
def sourceMsg (n : Nat) (names : List (List Char)) : List Char :=
  "Source file has ".data ++ natStr n ++ " type definitions (none allowed): ".data ++ joinComma names

/-- The type-count rule of `check_file`: headers are flagged above one
top-level type, source files above zero, other extensions never. -/
def typeCountViolations (filepath content : List Char) : List (List Char) :=
  if isHeaderPath filepath then
    if 1 < (all_types_of content).length then
      [headerMsg (all_types_of content).length (all_types_of content)]
    else []
  else if isSourcePath filepath then
    if 0 < (all_types_of content).length then
      [sourceMsg (all_types_of content).length (all_types_of content)]
    else []
  else []

/-- `f"Struct '{name}' should be PascalCase"`. -/
def structMsg (name : List Char) : List Char :=
  "Struct '".data ++ name ++ "' should be PascalCase".data

/-- `f"Class '{name}' should be PascalCase"`. -/
def classMsg (name : List Char) : List Char :=
  "Class '".data ++ name ++ "' should be PascalCase".data

/-- `f"Enum '{name}' should be PascalCase"`. -/
def enumMsg (name : List Char) : List Char :=
  "Enum '".data ++ name ++ "' should be PascalCase".data

/-- The PascalCase rule of `check_file`, over the three undeduplicated name
lists in order. -/
def pascalViolations (content : List Char) : List (List Char) :=
  (structsOf content).flatMap (fun n => if is_pascal_case n then [] else [structMsg n]) ++
  (classesOf content).flatMap (fun n => if is_pascal_case n then [] else [classMsg n]) ++
  (enumsOf content).flatMap (fun n => if is_pascal_case n then [] else [enumMsg n])

/-- `f"Variable '{name}' is too short (use descriptive names)"`. -/
def tooShortMsg (name : List Char) : List Char :=
  "Variable '".data ++ name ++ "' is too short (use descriptive names)".data

/-- `f"Variable '{name}' should be camelCase"`. -/
def varCamelMsg (name : List Char) : List Char :=
  "Variable '".data ++ name ++ "' should be camelCase".data

/-- The per-name body of the variable loop of `check_file`: a single-character
name is "too short", a longer one must be camelCase. -/
def varClassify (name : List Char) : List (List Char) :=
  if name.length = 1 then [tooShortMsg name]
  else if is_camel_case name then [] else [varCamelMsg name]

/-- The captured names of the three variable pattern families, concatenated in
the source's iteration order (auto, const-ref, basic-type). -/
def varNameStream (content : List Char) : List (List Char) :=
  (([AUTO_VAR_PATTERN, CONST_REF_VAR_PATTERN, BASIC_TYPE_VAR_PATTERN].flatMap
    (fun p => reFinditer p content)).map (matchGroup1 content))

/-- The variable loop of `check_file`: names already in `seen_vars` are
skipped, fresh names are added to it and classified. -/
def classifyVarNames : List (List Char) → List (List Char) → List (List Char)
  | [], _ => []
  | n :: rest, seen =>
      if n ∈ seen then classifyVarNames rest seen
      else varClassify n ++ classifyVarNames rest (n :: seen)

/-- The variable-naming rule of `check_file`. -/
def variableViolations (content : List Char) : List (List Char) :=
  classifyVarNames (varNameStream content) []

/-- `f"Function '{name}' should be camelCase"`. -/
def funcMsg (name : List Char) : List Char :=
  "Function '".data ++ name ++ "' should be camelCase".data

/-- The per-match body of the function loop of `check_file`: skip names equal
to an extracted type name or starting with `~`, matched texts showing
`Name::Name(` or `Name::Name (`, the name `main`, and names starting with
`operator`; otherwise flag names that are not camelCase. -/
def funcMatchViolation (all_types : List (List Char)) (content : List Char)
    (m : RMatch) : List (List Char) :=
  let func_name := matchGroup1 content m
  if func_name ∈ all_types ∨ hasPrefixL "~".data func_name = true then []
  else
    let match_text := matchGroup0 content m
    if containsSub match_text (func_name ++ "::".data ++ func_name ++ "(".data) = true ∨
        containsSub match_text (func_name ++ "::".data ++ func_name ++ " (".data) = true then []
    else if func_name = "main".data then []
    else if hasPrefixL "operator".data func_name = true then []
    else if is_camel_case func_name then []
    else [funcMsg func_name]

/-- The function-naming rule of `check_file`. -/
def functionViolations (content : List Char) : List (List Char) :=
  (reFinditer FUNCTION_PATTERN content).flatMap
    (funcMatchViolation (all_types_of content) content)

/-- `check_file(filepath)` with the file read resolved to `content` (the
read-failure branch, which returns a single synthetic violation, is outside
the claims): the violation list in the source's append order - length, file
naming, type count, PascalCase, variables, functions. -/
def check_file (filepath content : List Char) : List (List Char) :=
  lengthViolations content ++ fileNameViolations filepath ++
  typeCountViolations filepath content ++ pascalViolations content ++
  variableViolations content ++ functionViolations content

/-- A cache entry as `main` writes it: `{'mtime': mtime, 'violations': violations}`.
Modification timestamps are modelled as integers; the claims only compare
them for equality. -/
structure CacheEntry where
  mtime : Int
  violations : List (List Char)
deriving DecidableEq, Repr

/-- `cache.get(filepath)` on the in-memory cache dict, modelled as an
association list with unique keys. -/
def cacheGet : List (List Char × CacheEntry) → List Char → Option CacheEntry
  | [], _ => none
  | (k, e) :: rest, path => if k = path then some e else cacheGet rest path

/-- `cache[filepath] = entry`: overwrite the entry in place, or append a new
binding. -/
def cacheSet : List (List Char × CacheEntry) → List Char → CacheEntry →
    List (List Char × CacheEntry)
  | [], path, e => [(path, e)]
  | (k, e0) :: rest, path, e =>
      if k = path then (k, e) :: rest else (k, e0) :: cacheSet rest path e

/-- The per-file body of the loop in `main`: reuse the cached violations when
an entry exists and its stored mtime equals the file's current mtime
(a well-formed entry dict is always truthy in the Python condition
`if cached and cached.get('mtime') == mtime`), otherwise recompute with
`check_file` and overwrite the entry.  Returns the violations used for the
report and the updated cache. -/
def processFile (cache : List (List Char × CacheEntry)) (filepath : List Char)
    (mtime : Int) (content : List Char) :
    List (List Char) × List (List Char × CacheEntry) :=
  match cacheGet cache filepath with
  | some cached =>
      if cached.mtime = mtime then (cached.violations, cache)
      else (check_file filepath content,
            cacheSet cache filepath ⟨mtime, check_file filepath content⟩)
  | none =>
      (check_file filepath content,
       cacheSet cache filepath ⟨mtime, check_file filepath content⟩)

/-- JSON values as `json.load` produces them; number tokens keep their lexeme
(the claims never consume a parsed numeric value). -/
inductive Json where
  | null : Json
  | jbool : Bool → Json
  | jnum : List Char → Json
  | jstr : List Char → Json
  | jarr : List Json → Json
  | jobj : List (List Char × Json) → Json
deriving Repr

/-- JSON insignificant whitespace: space, tab, newline, carriage return. -/
def jsonWs (c : Char) : Bool :=
  c == ' ' || c == '\t' || c == '\n' || c == '\r'

/-- Drop leading JSON whitespace. -/
def skipJsonWs (s : List Char) : List Char :=
  s.dropWhile jsonWs

/-- Hexadecimal digit `[0-9a-fA-F]`. -/
def hexDigitChar (c : Char) : Bool :=
  c.isDigit || (decide ('a' ≤ c) && decide (c ≤ 'f')) || (decide ('A' ≤ c) && decide (c ≤ 'F'))

/-- Body of a JSON string after the opening quote: characters up to the
closing quote, rejecting raw control characters and malformed escapes as the
strict `json` decoder does.  Escape sequences are kept undecoded in the value
(only acceptance matters to the claims). -/
def parseJsonStringRest : List Char → Option (List Char × List Char)
  | [] => none
  | '"' :: rest => some ([], rest)
  | '\\' :: c :: rest =>
      if oneOf "\"\\/bfnrt".data c then
        (parseJsonStringRest rest).map (fun p => (c :: p.1, p.2))
      else if c == 'u' then
        match rest with
        | a :: b :: d :: e :: rest2 =>
            if hexDigitChar a && hexDigitChar b && hexDigitChar d && hexDigitChar e then
              (parseJsonStringRest rest2).map (fun p => (c :: p.1, p.2))
            else none
        | _ => none
      else none
  | c :: rest =>
      if c.toNat < 32 then none
      else (parseJsonStringRest rest).map (fun p => (c :: p.1, p.2))

/-- The unsigned integer part of a JSON number: `0` or `[1-9][0-9]*`. -/
def parseJsonUInt : List Char → Option (List Char × List Char)
  | [] => none
  | '0' :: rest => some (['0'], rest)
  | c :: rest =>
      if c.isDigit then some (c :: rest.takeWhile Char.isDigit, rest.dropWhile Char.isDigit)
      else none

/-- The optional fraction part `(\.\d+)?` of a JSON number. -/
def parseJsonFrac : List Char → List Char × List Char
  | '.' :: c :: rest =>
      if c.isDigit then
        ('.' :: c :: rest.takeWhile Char.isDigit, rest.dropWhile Char.isDigit)
      else ([], '.' :: c :: rest)
  | s => ([], s)

/-- The optional exponent part `([eE][-+]?\d+)?` of a JSON number. -/
def parseJsonExp (s : List Char) : List Char × List Char :=
  match s with
  | c :: rest =>
      if c == 'e' || c == 'E' then
        match rest with
        | d :: rest2 =>
            if d.isDigit then
              (c :: d :: rest2.takeWhile Char.isDigit, rest2.dropWhile Char.isDigit)
            else if d == '+' || d == '-' then
              match rest2 with
              | d2 :: rest3 =>
                  if d2.isDigit then
                    (c :: d :: d2 :: rest3.takeWhile Char.isDigit, rest3.dropWhile Char.isDigit)
                  else ([], s)
              | [] => ([], s)
            else ([], s)
        | [] => ([], s)
      else ([], s)
  | [] => ([], s)

/-- A JSON number token `-?(0|[1-9]\d*)(\.\d+)?([eE][-+]?\d+)?`. -/
def parseJsonNumber (s : List Char) : Option (List Char × List Char) :=
  match s with
  | '-' :: rest =>
      (parseJsonUInt rest).map (fun p =>
        let f := parseJsonFrac p.2
        let e := parseJsonExp f.2
        ('-' :: p.1 ++ f.1 ++ e.1, e.2))
  | _ =>
      (parseJsonUInt s).map (fun p =>
        let f := parseJsonFrac p.2
        let e := parseJsonExp f.2
        (p.1 ++ f.1 ++ e.1, e.2))

mutual

/-- A JSON value with leading whitespace skipped, following the constant and
container grammar of Python's `json` scanner (including its `NaN`,
`Infinity` and `-Infinity` extensions). -/
def parseJsonValue : Nat → List Char → Option (Json × List Char)
  | 0, _ => none
  | fuel + 1, s =>
      match skipJsonWs s with
      | [] => none
      | '\x7b' :: rest =>
          (match skipJsonWs rest with
           | '\x7d' :: rest2 => some (Json.jobj [], rest2)
           | _ => (parseJsonMembers fuel rest).map (fun p => (Json.jobj p.1, p.2)))
      | '[' :: rest =>
          (match skipJsonWs rest with
           | ']' :: rest2 => some (Json.jarr [], rest2)
           | _ => (parseJsonItems fuel rest).map (fun p => (Json.jarr p.1, p.2)))
      | '"' :: rest => (parseJsonStringRest rest).map (fun p => (Json.jstr p.1, p.2))
      | s' =>
          if hasPrefixL "null".data s' then some (Json.null, s'.drop 4)
          else if hasPrefixL "true".data s' then some (Json.jbool true, s'.drop 4)
          else if hasPrefixL "false".data s' then some (Json.jbool false, s'.drop 5)
          else if hasPrefixL "NaN".data s' then some (Json.jnum "NaN".data, s'.drop 3)
          else if hasPrefixL "Infinity".data s' then some (Json.jnum "Infinity".data, s'.drop 8)
          else if hasPrefixL "-Infinity".data s' then some (Json.jnum "-Infinity".data, s'.drop 9)
          else (parseJsonNumber s').map (fun p => (Json.jnum p.1, p.2))

/-- Members of a JSON object after the opening brace (at least one). -/
def parseJsonMembers : Nat → List Char → Option (List (List Char × Json) × List Char)
  | 0, _ => none
  | fuel + 1, s =>
      match skipJsonWs s with
      | '"' :: rest =>
          (match parseJsonStringRest rest with
           | none => none
           | some (key, rest2) =>
               match skipJsonWs rest2 with
               | ':' :: rest3 =>
                   (match parseJsonValue fuel rest3 with
                    | none => none
                    | some (v, rest4) =>
                        match skipJsonWs rest4 with
                        | ',' :: rest5 =>
                            (parseJsonMembers fuel rest5).map
                              (fun p => ((key, v) :: p.1, p.2))
                        | '\x7d' :: rest5 => some ([(key, v)], rest5)
                        | _ => none)
               | _ => none)
      | _ => none

/-- Items of a JSON array after the opening bracket (at least one). -/
def parseJsonItems : Nat → List Char → Option (List Json × List Char)
  | 0, _ => none
  | fuel + 1, s =>
      match parseJsonValue fuel s with
      | none => none
      | some (v, rest) =>
          match skipJsonWs rest with
          | ',' :: rest2 => (parseJsonItems fuel rest2).map (fun p => (v :: p.1, p.2))
          | ']' :: rest2 => some ([v], rest2)
          | _ => none

end

/-- `json.loads` / `json.load` on the whole text: one JSON value followed only
by whitespace, otherwise the decoder raises.  The fuel `length + 1` exceeds
the maximal container nesting depth of any input. -/
def json_parse (s : List Char) : Option Json :=
  match parseJsonValue (s.length + 1) s with
  | some (v, rest) => if skipJsonWs rest = [] then some v else none
  | none => none

/-- `load_cache()`, with the filesystem state of `CACHE_FILE` passed as
`none` (no regular file at the path) or `some content`.  When the file
exists its contents go through `json.load`, whose parse failure on corrupt
contents propagates as a raised exception (`Except.error`); only the
missing-file case returns the empty dict. -/
def load_cache (cacheFile : Option (List Char)) : Except Unit Json :=
  match cacheFile with
  | some content =>
      match json_parse content with
      | some v => Except.ok v
      | none => Except.error ()
  | none => Except.ok (Json.jobj [])

/-- Reference deduplication keeping the first occurrence of each name, as a
plain structural recursion (the claims compare the source's seen-set loop
against this). -/
def firstDedup : List (List Char) → List (List Char)
  | [] => []
  | x :: xs => x :: (firstDedup xs).filter (fun y => !(y == x))

/-- The exemption disjunction of the function-naming rule: name equal to an
extracted type name, destructor tilde, out-of-line constructor text
(`Name::Name(`, with or without a space before the parenthesis), `main`, or
an `operator` overload. -/
def funcExempt (all_types : List (List Char)) (content : List Char) (m : RMatch) : Prop :=
  matchGroup1 content m ∈ all_types
  ∨ hasPrefixL "~".data (matchGroup1 content m) = true
  ∨ containsSub (matchGroup0 content m)
      (matchGroup1 content m ++ "::".data ++ matchGroup1 content m ++ "(".data) = true
  ∨ containsSub (matchGroup0 content m)
      (matchGroup1 content m ++ "::".data ++ matchGroup1 content m ++ " (".data) = true
  ∨ matchGroup1 content m = "main".data
  ∨ hasPrefixL "operator".data (matchGroup1 content m) = true

theorem hasPrefixL_append (p s : List Char) : hasPrefixL p (p ++ s) = true := by
  induction p with
  | nil => rfl
  | cons c cs ih => simp [hasPrefixL, ih]

theorem msg_ne_of_heads {P : List Char → Bool} {a b : List Char}
    (ha : P a = true) (hb : P b = false) : a ≠ b := by
  intro h
  rw [h, hb] at ha
  exact Bool.noConfusion ha

theorem heads_lengthMsg (n : Nat) :
    hasPrefixL "File has ".data (lengthMsg n) = true ∧
    hasPrefixL "Header has ".data (lengthMsg n) = false ∧
    hasPrefixL "Source file has ".data (lengthMsg n) = false :=
  ⟨hasPrefixL_append "File has ".data (natStr n ++ " lines (max 1000 allowed)".data),
   rfl, rfl⟩

theorem heads_fileNameMsg (fn : List Char) :
    hasPrefixL "File has ".data (fileNameMsg fn) = false ∧
    hasPrefixL "Header has ".data (fileNameMsg fn) = false ∧
    hasPrefixL "Source file has ".data (fileNameMsg fn) = false :=
  ⟨rfl, rfl, rfl⟩

theorem heads_headerMsg (n : Nat) (names : List (List Char)) :
    hasPrefixL "File has ".data (headerMsg n names) = false ∧
    hasPrefixL "Header has ".data (headerMsg n names) = true ∧
    hasPrefixL "Source file has ".data (headerMsg n names) = false :=
  ⟨rfl,
   hasPrefixL_append "Header has ".data
     (natStr n ++ " types (only 1 allowed): ".data ++ joinComma names),
   rfl⟩

theorem heads_sourceMsg (n : Nat) (names : List (List Char)) :
    hasPrefixL "File has ".data (sourceMsg n names) = false ∧
    hasPrefixL "Header has ".data (sourceMsg n names) = false ∧
    hasPrefixL "Source file has ".data (sourceMsg n names) = true :=
  ⟨rfl, rfl,
   hasPrefixL_append "Source file has ".data
     (natStr n ++ " type definitions (none allowed): ".data ++ joinComma names)⟩

theorem heads_structMsg (nm : List Char) :
    hasPrefixL "File has ".data (structMsg nm) = false ∧
    hasPrefixL "Header has ".data (structMsg nm) = false ∧
    hasPrefixL "Source file has ".data (structMsg nm) = false :=
  ⟨rfl, rfl, rfl⟩

theorem heads_classMsg (nm : List Char) :
    hasPrefixL "File has ".data (classMsg nm) = false ∧
    hasPrefixL "Header has ".data (classMsg nm) = false ∧
    hasPrefixL "Source file has ".data (classMsg nm) = false :=
  ⟨rfl, rfl, rfl⟩

theorem heads_enumMsg (nm : List Char) :
    hasPrefixL "File has ".data (enumMsg nm) = false ∧
    hasPrefixL "Header has ".data (enumMsg nm) = false ∧
    hasPrefixL "Source file has ".data (enumMsg nm) = false :=
  ⟨rfl, rfl, rfl⟩

theorem heads_tooShortMsg (nm : List Char) :
    hasPrefixL "File has ".data (tooShortMsg nm) = false ∧
    hasPrefixL "Header has ".data (tooShortMsg nm) = false ∧
    hasPrefixL "Source file has ".data (tooShortMsg nm) = false :=
  ⟨rfl, rfl, rfl⟩

theorem heads_varCamelMsg (nm : List Char) :
    hasPrefixL "File has ".data (varCamelMsg nm) = false ∧
    hasPrefixL "Header has ".data (varCamelMsg nm) = false ∧
    hasPrefixL "Source file has ".data (varCamelMsg nm) = false :=
  ⟨rfl, rfl, rfl⟩

theorem heads_funcMsg (nm : List Char) :
    hasPrefixL "File has ".data (funcMsg nm) = false ∧
    hasPrefixL "Header has ".data (funcMsg nm) = false ∧
    hasPrefixL "Source file has ".data (funcMsg nm) = false :=
  ⟨rfl, rfl, rfl⟩

theorem hasPrefixL_conflict : ∀ (s p q : List Char),
    hasPrefixL p s = true → hasPrefixL q s = true →
    hasPrefixL p q = true ∨ hasPrefixL q p = true := by
  intro s
  induction s with
  | nil =>
      intro p q hp hq
      cases p with
      | nil => exact Or.inl rfl
      | cons a ps => exact absurd hp (by simp [hasPrefixL])
  | cons c cs ih =>
      intro p q hp hq
      cases p with
      | nil => exact Or.inl rfl
      | cons a ps =>
        cases q with
        | nil => exact Or.inr rfl
        | cons b qs =>
          rw [hasPrefixL, Bool.and_eq_true, beq_iff_eq] at hp hq
          obtain ⟨hac, hp⟩ := hp
          obtain ⟨hbc, hq⟩ := hq
          subst hac
          subst hbc
          rcases ih ps qs hp hq with h | h
          · exact Or.inl (by rw [hasPrefixL, h, Bool.and_eq_true]; exact ⟨beq_self_eq_true _, rfl⟩)
          · exact Or.inr (by rw [hasPrefixL, h, Bool.and_eq_true]; exact ⟨beq_self_eq_true _, rfl⟩)

theorem header_not_source (fp : List Char) (h : isHeaderPath fp = true) :
    isSourcePath fp = false := by
  cases hs : isSourcePath fp with
  | false => rfl
  | true =>
    exfalso
    rw [isHeaderPath, Bool.or_eq_true] at h
    rw [isSourcePath, Bool.or_eq_true] at hs
    unfold hasSuffixL at h hs
    rcases h with h | h <;> rcases hs with hs | hs <;>
      rcases hasPrefixL_conflict _ _ _ h hs with hc | hc <;>
      exact absurd hc (by decide)

theorem countP_eq_zero_of_shapes {P : List Char → Bool} {l : List (List Char)}
    (h : ∀ a ∈ l, P a = false) : List.countP P l = 0 :=
  List.countP_eq_zero.2 (fun a ha => by rw [h a ha]; exact Bool.false_ne_true)

theorem mem_lengthViolations {a c : List Char} (h : a ∈ lengthViolations c) :
    a = lengthMsg (lineCount c) ∧ 1000 < lineCount c := by
  unfold lengthViolations at h
  split_ifs at h with h1
  · exact ⟨List.mem_singleton.1 h, h1⟩
  · simp at h

theorem mem_fileNameViolations {a fp : List Char} (h : a ∈ fileNameViolations fp) :
    a = fileNameMsg (basenameL fp) := by
  unfold fileNameViolations at h
  split_ifs at h
  · simp at h
  · exact List.mem_singleton.1 h

theorem mem_typeCountViolations {a fp c : List Char} (h : a ∈ typeCountViolations fp c) :
    (isHeaderPath fp = true ∧ 1 < (all_types_of c).length ∧
      a = headerMsg (all_types_of c).length (all_types_of c)) ∨
    (isHeaderPath fp = false ∧ isSourcePath fp = true ∧ 0 < (all_types_of c).length ∧
      a = sourceMsg (all_types_of c).length (all_types_of c)) := by
  unfold typeCountViolations at h
  split_ifs at h with h1 h2 h3 h4
  · exact Or.inl ⟨h1, h2, List.mem_singleton.1 h⟩
  · simp at h
  · refine Or.inr ⟨?_, h3, h4, List.mem_singleton.1 h⟩
    revert h1
    cases isHeaderPath fp <;> simp
  · simp at h
  · simp at h

theorem mem_pascalViolations {a c : List Char} (h : a ∈ pascalViolations c) :
    (∃ nm, a = structMsg nm) ∨ (∃ nm, a = classMsg nm) ∨ (∃ nm, a = enumMsg nm) := by
  unfold pascalViolations at h
  rcases List.mem_append.1 h with h | h
  · rcases List.mem_append.1 h with h | h
    · rcases List.mem_flatMap.1 h with ⟨nm, _, hm⟩
      refine Or.inl ⟨nm, ?_⟩
      revert hm
      split_ifs <;> simp
    · rcases List.mem_flatMap.1 h with ⟨nm, _, hm⟩
      refine Or.inr (Or.inl ⟨nm, ?_⟩)
      revert hm
      split_ifs <;> simp
  · rcases List.mem_flatMap.1 h with ⟨nm, _, hm⟩
    refine Or.inr (Or.inr ⟨nm, ?_⟩)
    revert hm
    split_ifs <;> simp

theorem mem_classifyVarNames {a : List Char} :
    ∀ {l seen : List (List Char)}, a ∈ classifyVarNames l seen →
    (∃ nm, a = tooShortMsg nm) ∨ (∃ nm, a = varCamelMsg nm) := by
  intro l
  induction l with
  | nil => intro seen h; simp [classifyVarNames] at h
  | cons n rest ih =>
      intro seen h
      unfold classifyVarNames at h
      split_ifs at h with h1
      · exact ih h
      · rcases List.mem_append.1 h with h | h
        · unfold varClassify at h
          split_ifs at h with h2 h3
          · exact Or.inl ⟨n, List.mem_singleton.1 h⟩
          · simp at h
          · exact Or.inr ⟨n, List.mem_singleton.1 h⟩
        · exact ih h

theorem mem_funcMatchViolation {t : List (List Char)} {c : List Char} {m : RMatch}
    {a : List Char} (h : a ∈ funcMatchViolation t c m) :
    a = funcMsg (matchGroup1 c m) := by
  simp only [funcMatchViolation] at h
  split_ifs at h <;> simp at h
  exact h

theorem mem_functionViolations {a c : List Char} (h : a ∈ functionViolations c) :
    ∃ nm, a = funcMsg nm := by
  unfold functionViolations at h
  rcases List.mem_flatMap.1 h with ⟨m, _, hm⟩
  exact ⟨matchGroup1 c m, mem_funcMatchViolation hm⟩

theorem oneOf_braceColon (ch : Char) :
    oneOf "\x7b:".data ch = true ↔ (ch = '\x7b' ∨ ch = ':') := by
  simp [oneOf, List.contains_cons]


theorem depthStep_snd (nsPos : List Nat) (s : Int × List Bool) (x : Nat × Char) :
    (depthStep nsPos s x).2 = braceStackStep nsPos s.2 x := by
  obtain ⟨d, st⟩ := s
  simp only [depthStep, braceStackStep]
  split_ifs <;> first | rfl | (cases st <;> rfl)

theorem foldl_depthStep_snd (nsPos : List Nat) (l : List (Nat × Char)) :
    ∀ s : Int × List Bool,
    (l.foldl (depthStep nsPos) s).2 = l.foldl (braceStackStep nsPos) s.2 := by
  induction l with
  | nil => intro s; rfl
  | cons x xs ih =>
      intro s
      rw [List.foldl_cons, List.foldl_cons, ih, depthStep_snd]

theorem depthStep_fst (nsPos : List Nat) (s : Int × List Bool) (x : Nat × Char) :
    (depthStep nsPos s x).1 - (List.countP (fun b => !b) (depthStep nsPos s x).2 : Int)
      = s.1 - List.countP (fun b => !b) s.2 := by
  obtain ⟨d, st⟩ := s
  simp only [depthStep]
  by_cases h1 : (x.2 == '\x7b') = true
  · rw [if_pos h1]
    by_cases hns : x.1 ∈ nsPos
    · simp [hns, List.countP_cons]
    · have hc : nsPos.contains x.1 = false := by simpa using hns
      simp only [hc, List.countP_cons, Bool.not_false, if_true, if_false]
      push_cast
      omega
  · rw [if_neg h1]
    by_cases h2 : (x.2 == '\x7d') = true
    · rw [if_pos h2]
      cases st with
      | nil => rfl
      | cons b r =>
          cases b
          · simp only [List.countP_cons, Bool.not_false, if_true, if_false]
            push_cast
            omega
          · simp [List.countP_cons]
    · rw [if_neg h2]

theorem foldl_depthStep_fst (nsPos : List Nat) (l : List (Nat × Char)) :
    ∀ s : Int × List Bool,
    (l.foldl (depthStep nsPos) s).1
        - (List.countP (fun b => !b) (l.foldl (depthStep nsPos) s).2 : Int)
      = s.1 - List.countP (fun b => !b) s.2 := by
  induction l with
  | nil => intro s; rfl
  | cons x xs ih =>
      intro s
      rw [List.foldl_cons, ih (depthStep nsPos s x), depthStep_fst]

theorem gtnd_eq_count (content : List Char) (pos : Nat) :
    get_type_nesting_depth content pos
      = (List.countP (fun b => !b) (enclosingBraceFlags content pos) : Int) := by
  have h1 := foldl_depthStep_fst (namespaceBracePositions content)
    ((content.take pos).enum) (0, [])
  have h2 := foldl_depthStep_snd (namespaceBracePositions content)
    ((content.take pos).enum) (0, [])
  unfold get_type_nesting_depth enclosingBraceFlags
  rw [← h2]
  simp only [List.countP_nil] at h1
  omega

theorem dedupFirstAux_eq_filter (l : List (List Char)) : ∀ seen : List (List Char),
    dedupFirstAux l seen = (firstDedup l).filter (fun y => !(seen.contains y)) := by
  induction l with
  | nil => intro seen; rfl
  | cons t rest ih =>
      intro seen
      simp only [dedupFirstAux, firstDedup, List.filter_cons]
      have hiff : (!(seen.contains t)) = true ↔ ¬(t ∈ seen) := by simp
      simp only [hiff]
      by_cases ht : t ∈ seen
      · rw [if_pos ht, if_neg (not_not_intro ht), ih seen, List.filter_filter]
        apply List.filter_congr
        intro y _
        by_cases hy : y ∈ seen
        · simp [hy]
        · have hyt : (y == t) = false := by
            refine beq_eq_false_iff_ne.2 (fun he => ?_)
            exact hy (by rw [he]; exact ht)
          simp [hy, hyt]
      · rw [if_neg ht, if_pos ht]
        congr 1
        rw [ih (t :: seen), List.filter_filter]
        apply List.filter_congr
        intro y _
        simp only [List.contains_cons, Bool.not_or]
        by_cases hyt : y = t <;> by_cases hy : y ∈ seen <;> simp [hyt, hy]

theorem dedupFirst_eq_firstDedup (l : List (List Char)) :
    dedupFirstAux l [] = firstDedup l := by
  rw [dedupFirstAux_eq_filter l []]
  simp

theorem classifyVarNames_eq (l : List (List Char)) : ∀ seen : List (List Char),
    classifyVarNames l seen = (dedupFirstAux l seen).flatMap varClassify := by
  induction l with
  | nil => intro seen; rfl
  | cons n rest ih =>
      intro seen
      unfold classifyVarNames dedupFirstAux
      by_cases h : n ∈ seen
      · rw [if_pos h, if_pos h, ih]
      · rw [if_neg h, if_neg h, List.flatMap_cons, ih]

theorem countP_lengthViolations_zero {P : List Char → Bool}
    (hlen : ∀ n, P (lengthMsg n) = false) (c : List Char) :
    List.countP P (lengthViolations c) = 0 := by
  refine countP_eq_zero_of_shapes (fun a ha => ?_)
  rw [(mem_lengthViolations ha).1]
  exact hlen _

theorem countP_fileNameViolations_zero {P : List Char → Bool}
    (hfn : ∀ fn, P (fileNameMsg fn) = false) (fp : List Char) :
    List.countP P (fileNameViolations fp) = 0 := by
  refine countP_eq_zero_of_shapes (fun a ha => ?_)
  rw [mem_fileNameViolations ha]
  exact hfn _

theorem countP_pascalViolations_zero {P : List Char → Bool}
    (hs : ∀ nm, P (structMsg nm) = false) (hc : ∀ nm, P (classMsg nm) = false)
    (he : ∀ nm, P (enumMsg nm) = false) (c : List Char) :
    List.countP P (pascalViolations c) = 0 := by
  refine countP_eq_zero_of_shapes (fun a ha => ?_)
  rcases mem_pascalViolations ha with ⟨nm, h⟩ | ⟨nm, h⟩ | ⟨nm, h⟩ <;> rw [h]
  · exact hs _
  · exact hc _
  · exact he _

theorem countP_variableViolations_zero {P : List Char → Bool}
    (hts : ∀ nm, P (tooShortMsg nm) = false) (hvc : ∀ nm, P (varCamelMsg nm) = false)
    (c : List Char) :
    List.countP P (variableViolations c) = 0 := by
  refine countP_eq_zero_of_shapes (fun a ha => ?_)
  rcases mem_classifyVarNames ha with ⟨nm, h⟩ | ⟨nm, h⟩ <;> rw [h]
  · exact hts _
  · exact hvc _

theorem countP_functionViolations_zero {P : List Char → Bool}
    (hf : ∀ nm, P (funcMsg nm) = false) (c : List Char) :
    List.countP P (functionViolations c) = 0 := by
  refine countP_eq_zero_of_shapes (fun a ha => ?_)
  obtain ⟨nm, h⟩ := mem_functionViolations ha
  rw [h]
  exact hf _

theorem countP_typeCount_header (fp c : List Char) :
    List.countP (hasPrefixL "Header has ".data) (typeCountViolations fp c)
      = if isHeaderPath fp = true ∧ 2 ≤ (all_types_of c).length then 1 else 0 := by
  unfold typeCountViolations
  by_cases h1 : isHeaderPath fp = true
  · by_cases h2 : 1 < (all_types_of c).length
    · have hrhs : isHeaderPath fp = true ∧ 2 ≤ (all_types_of c).length := ⟨h1, by omega⟩
      rw [if_pos h1, if_pos h2, if_pos hrhs]
      simp [List.countP_cons,
        (heads_headerMsg (all_types_of c).length (all_types_of c)).2.1]
    · have hrhs : ¬(isHeaderPath fp = true ∧ 2 ≤ (all_types_of c).length) := by
        intro hh
        exact h2 (by omega)
      rw [if_pos h1, if_neg h2, if_neg hrhs]
      simp
  · have hrhs : ¬(isHeaderPath fp = true ∧ 2 ≤ (all_types_of c).length) :=
      fun hh => h1 hh.1
    rw [if_neg h1, if_neg hrhs]
    by_cases h3 : isSourcePath fp = true
    · by_cases h4 : 0 < (all_types_of c).length
      · rw [if_pos h3, if_pos h4]
        simp [List.countP_cons,
          (heads_sourceMsg (all_types_of c).length (all_types_of c)).2.1]
      · rw [if_pos h3, if_neg h4]
        simp
    · rw [if_neg h3]
      simp

theorem countP_typeCount_source (fp c : List Char) :
    List.countP (hasPrefixL "Source file has ".data) (typeCountViolations fp c)
      = if isSourcePath fp = true ∧ 1 ≤ (all_types_of c).length then 1 else 0 := by
  unfold typeCountViolations
  by_cases h1 : isHeaderPath fp = true
  · have hs := header_not_source fp h1
    have hrhs : ¬(isSourcePath fp = true ∧ 1 ≤ (all_types_of c).length) := by
      intro hh
      have hcontra : isSourcePath fp = true := hh.1
      rw [hs] at hcontra
      exact Bool.noConfusion hcontra
    rw [if_neg hrhs]
    by_cases h2 : 1 < (all_types_of c).length
    · rw [if_pos h1, if_pos h2]
      simp [List.countP_cons,
        (heads_headerMsg (all_types_of c).length (all_types_of c)).2.2]
    · rw [if_pos h1, if_neg h2]
      simp
  · rw [if_neg h1]
    by_cases h3 : isSourcePath fp = true
    · by_cases h4 : 0 < (all_types_of c).length
      · have hrhs : isSourcePath fp = true ∧ 1 ≤ (all_types_of c).length := ⟨h3, by omega⟩
        rw [if_pos h3, if_pos h4, if_pos hrhs]
        simp [List.countP_cons,
          (heads_sourceMsg (all_types_of c).length (all_types_of c)).2.2]
      · have hrhs : ¬(isSourcePath fp = true ∧ 1 ≤ (all_types_of c).length) := by
          intro hh
          exact h4 (by omega)
        rw [if_pos h3, if_neg h4, if_neg hrhs]
        simp
    · have hrhs : ¬(isSourcePath fp = true ∧ 1 ≤ (all_types_of c).length) :=
        fun hh => h3 hh.1
      rw [if_neg h3, if_neg hrhs]
      simp

theorem countP_lengthViolations_main (c : List Char) :
    List.countP (hasPrefixL "File has ".data) (lengthViolations c)
      = if 1000 < lineCount c then 1 else 0 := by
  unfold lengthViolations
  by_cases h : 1000 < lineCount c
  · rw [if_pos h, if_pos h]
    simp [List.countP_cons, (heads_lengthMsg (lineCount c)).1]
  · rw [if_neg h, if_neg h]
    simp

/-- C2 (amended): `load_cache` returns the parsed JSON value when the cache
file exists and its contents are valid JSON, returns the empty mapping when
the cache file is missing, and raises (aborting the run) when the contents do
not parse as JSON - the source wraps `json.load` in no exception handler. -/
theorem C2_load_cache : ∀ content : List Char,
    load_cache none = Except.ok (Json.jobj [])
    ∧ (∀ v, json_parse content = some v → load_cache (some content) = Except.ok v)
    ∧ (json_parse content = none → load_cache (some content) = Except.error ())
    ∧ load_cache (some "\x7b\x7d".data) = Except.ok (Json.jobj []) := by
  intro content
  refine ⟨rfl, ?_, ?_, rfl⟩
  · intro v hv
    simp [load_cache, hv]
  · intro hv
    simp [load_cache, hv]

/-- Counterexample to C2 as stated: on the corrupt cache content `x` the
decoder fails, so `load_cache` raises instead of returning an empty mapping -
loading the cache can abort the run. -/
theorem C2_counterexample :
    load_cache (some "x".data) = Except.error () := rfl

/-- Witness for C2: the hypotheses of `C2_load_cache` are satisfiable, here at
the corrupt content `[`. -/
theorem C2_witness :
    load_cache (some "[".data) = Except.error () :=
  (C2_load_cache "[".data).2.2.1 rfl

/-- C3: in the per-file loop of `main`, the cached violation list is reused
verbatim exactly when an entry exists for the path and its stored mtime equals
the file's current mtime; otherwise the violations are recomputed by
`check_file` and the entry is overwritten with the new mtime and list. -/
theorem C3_cache_reuse :
    ∀ (cache : List (List Char × CacheEntry)) (filepath : List Char) (mtime : Int)
      (content : List Char),
    (∀ e, cacheGet cache filepath = some e → e.mtime = mtime →
        processFile cache filepath mtime content = (e.violations, cache))
    ∧ (∀ e, cacheGet cache filepath = some e → e.mtime ≠ mtime →
        processFile cache filepath mtime content
          = (check_file filepath content,
             cacheSet cache filepath ⟨mtime, check_file filepath content⟩))
    ∧ (cacheGet cache filepath = none →
        processFile cache filepath mtime content
          = (check_file filepath content,
             cacheSet cache filepath ⟨mtime, check_file filepath content⟩)) := by
  intro cache filepath mtime content
  refine ⟨?_, ?_, ?_⟩
  · intro e he hm
    simp [processFile, he, hm]
  · intro e he hm
    simp [processFile, he, hm]
  · intro he
    simp [processFile, he]

/-- Witness for C3: a cache hit with matching mtime is reused without
recomputation or cache update. -/
theorem C3_witness :
    processFile [("a.h".data, CacheEntry.mk 7 [])] "a.h".data 7 "x".data
      = ([], [("a.h".data, CacheEntry.mk 7 [])]) :=
  (C3_cache_reuse [("a.h".data, CacheEntry.mk 7 [])] "a.h".data 7 "x".data).1
    (CacheEntry.mk 7 []) (by decide) rfl

/-- C5: `get_type_nesting_depth` equals the number of enclosing non-namespace
open braces before the offset (the count of non-namespace flags on the
reference brace stack); a type directly inside `namespace foo { ... }` is at
depth 0 and extracted as top-level, while a type nested in another struct body
is at depth 1 and excluded. -/
theorem C5_scope_tracker :
    (∀ (content : List Char) (pos : Nat), pos ≤ content.length →
        get_type_nesting_depth content pos
          = (List.countP (fun b => !b) (enclosingBraceFlags content pos) : Int))
    ∧ find_definitions "namespace foo \x7b struct Bar \x7b \x7d; \x7d".data STRUCT_PATTERN
        = ["Bar".data]
    ∧ get_type_nesting_depth "namespace foo \x7b struct Bar \x7b \x7d; \x7d".data 16 = 0
    ∧ find_definitions "struct A \x7b struct B \x7b \x7d; \x7d;".data STRUCT_PATTERN
        = ["A".data]
    ∧ get_type_nesting_depth "struct A \x7b struct B \x7b \x7d; \x7d;".data 11 = 1 :=
  ⟨fun content pos _ => gtnd_eq_count content pos, by decide, by decide, by decide,
   by decide⟩

/-- Witness for C5: the depth/stack equation instantiated at a concrete text
and offset. -/
theorem C5_witness :
    get_type_nesting_depth "\x7b".data 1
      = (List.countP (fun b => !b) (enclosingBraceFlags "\x7b".data 1) : Int) :=
  C5_scope_tracker.1 "\x7b".data 1 (by decide)

/-- C7: across the three variable pattern families each distinct captured name
is classified once, the first occurrence deciding (the seen-set loop equals
dedup-then-classify); a single-character name always yields the "too short"
violation, a longer one yields a camelCase violation exactly when it is not
camelCase; on `int count = 0; auto count2 = count;` each name is seen once
and no violation results. -/
theorem C7_variable_dedup :
    ∀ (content name : List Char),
    variableViolations content
      = (dedupFirstAux (varNameStream content) []).flatMap varClassify
    ∧ (name.length = 1 → varClassify name = [tooShortMsg name])
    ∧ (2 ≤ name.length →
        varClassify name = if is_camel_case name = true then [] else [varCamelMsg name])
    ∧ varNameStream "int count = 0; auto count2 = count;".data
        = ["count2".data, "count".data]
    ∧ variableViolations "int count = 0; auto count2 = count;".data = [] := by
  intro content name
  refine ⟨classifyVarNames_eq _ [], ?_, ?_, by decide, by decide⟩
  · intro h
    simp [varClassify, h]
  · intro h
    have h1 : ¬(name.length = 1) := by omega
    simp [varClassify, h1]

/-- Witness for C7: the single-character rule instantiated at the name `x`. -/
theorem C7_witness : varClassify "x".data = [tooShortMsg "x".data] :=
  (C7_variable_dedup [] "x".data).2.1 rfl

/-- C8 (amended): `is_camel_case` holds exactly when the first character of
the extension-stripped stem is not an uppercase letter and the stem has no
underscore; `is_pascal_case` holds exactly when the first character is not a
lowercase letter and the name has no underscore (the source tests
`isupper()`/`islower()`, which non-letter first characters pass). -/
theorem C8_casing :
    (∀ (name : List Char) (c : Char) (rest : List Char),
        pyStem (basenameL name) = c :: rest →
        (is_camel_case name = true ↔
          (c.isUpper = false ∧ (c :: rest).contains '_' = false)))
    ∧ (∀ (c : Char) (rest : List Char),
        is_pascal_case (c :: rest) = true ↔
          (c.isLower = false ∧ (c :: rest).contains '_' = false)) := by
  constructor
  · intro name c rest h
    cases name with
    | nil =>
        exfalso
        have hnil : pyStem (basenameL ([] : List Char)) = [] := rfl
        rw [hnil] at h
        exact List.noConfusion h
    | cons a as =>
        unfold is_camel_case
        rw [h]
        simp [Bool.and_eq_true, Bool.not_eq_true']
  · intro c rest
    unfold is_pascal_case
    simp [Bool.and_eq_true, Bool.not_eq_true']

/-- Counterexample to C8 as stated: the name `1x` is accepted as camelCase and
`1X` as PascalCase although their first character is neither a lowercase nor
an uppercase letter. -/
theorem C8_counterexample :
    is_camel_case "1x".data = true ∧ Char.isLower '1' = false
    ∧ pyStem (basenameL "1x".data) = "1x".data
    ∧ is_pascal_case "1X".data = true ∧ Char.isUpper '1' = false := by decide

/-- Witness for C8: the casing characterisation instantiated at `a.h` and
`Ab`. -/
theorem C8_witness :
    (is_camel_case "a.h".data = true ↔
      ('a'.isUpper = false ∧ (['a'] : List Char).contains '_' = false))
    ∧ (is_pascal_case "Ab".data = true ↔
      ('A'.isLower = false ∧ "Ab".data.contains '_' = false)) :=
  ⟨C8_casing.1 "a.h".data 'a' [] (by decide), C8_casing.2 'A' ['b']⟩

/-- C10: the depth is never negative - a closing brace met while the brace
stack is empty is ignored, so even on unbalanced text with excess closing
braces the result is a nonnegative integer. -/
theorem C10_depth_nonneg :
    (∀ (content : List Char) (pos : Nat), pos ≤ content.length →
        0 ≤ get_type_nesting_depth content pos)
    ∧ get_type_nesting_depth "\x7d\x7d\x7d".data 3 = 0 :=
  ⟨fun content pos _ => by
      rw [gtnd_eq_count]
      exact Int.natCast_nonneg _,
   by decide⟩

/-- Witness for C10: nonnegativity instantiated on text of two bare closing
braces. -/
theorem C10_witness : 0 ≤ get_type_nesting_depth "\x7d\x7d".data 2 :=
  C10_depth_nonneg.1 "\x7d\x7d".data 2 (by decide)

/-- C1 (amended): the type-count rule flags a header exactly when at least two
top-level types were extracted (exactly one violation, the message listing all
names), flags a source file exactly when at least one was, and never flags
other extensions; a header with zero or one top-level type - in particular one
PascalCase struct and nothing else - receives no type-count violation. -/
theorem C1_type_count_rule :
    ∀ (fp content : List Char),
    List.countP (hasPrefixL "Header has ".data) (check_file fp content)
      = (if isHeaderPath fp = true ∧ 2 ≤ (all_types_of content).length then 1 else 0)
    ∧ List.countP (hasPrefixL "Source file has ".data) (check_file fp content)
      = (if isSourcePath fp = true ∧ 1 ≤ (all_types_of content).length then 1 else 0)
    ∧ (headerMsg (all_types_of content).length (all_types_of content)
          ∈ check_file fp content
        ↔ isHeaderPath fp = true ∧ 2 ≤ (all_types_of content).length)
    ∧ (sourceMsg (all_types_of content).length (all_types_of content)
          ∈ check_file fp content
        ↔ isSourcePath fp = true ∧ 1 ≤ (all_types_of content).length)
    ∧ check_file "a.hpp".data "struct Foo \x7b\x7d;".data = [] := by
  intro fp content
  have hsplit : check_file fp content
      = lengthViolations content ++ fileNameViolations fp
        ++ typeCountViolations fp content ++ pascalViolations content
        ++ variableViolations content ++ functionViolations content := rfl
  refine ⟨?_, ?_, ?_, ?_, by decide⟩
  · rw [hsplit]
    simp only [List.countP_append]
    rw [countP_lengthViolations_zero (fun n => (heads_lengthMsg n).2.1),
        countP_fileNameViolations_zero (fun fn => (heads_fileNameMsg fn).2.1),
        countP_typeCount_header,
        countP_pascalViolations_zero (fun nm => (heads_structMsg nm).2.1)
          (fun nm => (heads_classMsg nm).2.1) (fun nm => (heads_enumMsg nm).2.1),
        countP_variableViolations_zero (fun nm => (heads_tooShortMsg nm).2.1)
          (fun nm => (heads_varCamelMsg nm).2.1),
        countP_functionViolations_zero (fun nm => (heads_funcMsg nm).2.1)]
    simp
  · rw [hsplit]
    simp only [List.countP_append]
    rw [countP_lengthViolations_zero (fun n => (heads_lengthMsg n).2.2),
        countP_fileNameViolations_zero (fun fn => (heads_fileNameMsg fn).2.2),
        countP_typeCount_source,
        countP_pascalViolations_zero (fun nm => (heads_structMsg nm).2.2)
          (fun nm => (heads_classMsg nm).2.2) (fun nm => (heads_enumMsg nm).2.2),
        countP_variableViolations_zero (fun nm => (heads_tooShortMsg nm).2.2)
          (fun nm => (heads_varCamelMsg nm).2.2),
        countP_functionViolations_zero (fun nm => (heads_funcMsg nm).2.2)]
    simp
  · constructor
    · intro hmem
      rw [hsplit] at hmem
      have PHtrue :=
        (heads_headerMsg (all_types_of content).length (all_types_of content)).2.1
      rcases List.mem_append.1 hmem with hmem | hmem
      · rcases List.mem_append.1 hmem with hmem | hmem
        · rcases List.mem_append.1 hmem with hmem | hmem
          · rcases List.mem_append.1 hmem with hmem | hmem
            · rcases List.mem_append.1 hmem with hmem | hmem
              · exact absurd (mem_lengthViolations hmem).1
                  (msg_ne_of_heads PHtrue (heads_lengthMsg _).2.1)
              · exact absurd (mem_fileNameViolations hmem)
                  (msg_ne_of_heads PHtrue (heads_fileNameMsg _).2.1)
            · rcases mem_typeCountViolations hmem with ⟨h1, h2, _⟩ | ⟨_, _, _, heq⟩
              · exact ⟨h1, by omega⟩
              · exact absurd heq (msg_ne_of_heads PHtrue (heads_sourceMsg _ _).2.1)
          · rcases mem_pascalViolations hmem with ⟨nm, heq⟩ | ⟨nm, heq⟩ | ⟨nm, heq⟩
            · exact absurd heq (msg_ne_of_heads PHtrue (heads_structMsg _).2.1)
            · exact absurd heq (msg_ne_of_heads PHtrue (heads_classMsg _).2.1)
            · exact absurd heq (msg_ne_of_heads PHtrue (heads_enumMsg _).2.1)
        · rcases mem_classifyVarNames hmem with ⟨nm, heq⟩ | ⟨nm, heq⟩
          · exact absurd heq (msg_ne_of_heads PHtrue (heads_tooShortMsg _).2.1)
          · exact absurd heq (msg_ne_of_heads PHtrue (heads_varCamelMsg _).2.1)
      · obtain ⟨nm, heq⟩ := mem_functionViolations hmem
        exact absurd heq (msg_ne_of_heads PHtrue (heads_funcMsg _).2.1)
    · rintro ⟨h1, h2⟩
      have htc : typeCountViolations fp content
          = [headerMsg (all_types_of content).length (all_types_of content)] := by
        unfold typeCountViolations
        rw [if_pos h1, if_pos (by omega : 1 < (all_types_of content).length)]
      rw [hsplit]
      simp [htc, List.mem_append]
  · constructor
    · intro hmem
      rw [hsplit] at hmem
      have PStrue :=
        (heads_sourceMsg (all_types_of content).length (all_types_of content)).2.2
      rcases List.mem_append.1 hmem with hmem | hmem
      · rcases List.mem_append.1 hmem with hmem | hmem
        · rcases List.mem_append.1 hmem with hmem | hmem
          · rcases List.mem_append.1 hmem with hmem | hmem
            · rcases List.mem_append.1 hmem with hmem | hmem
              · exact absurd (mem_lengthViolations hmem).1
                  (msg_ne_of_heads PStrue (heads_lengthMsg _).2.2)
              · exact absurd (mem_fileNameViolations hmem)
                  (msg_ne_of_heads PStrue (heads_fileNameMsg _).2.2)
            · rcases mem_typeCountViolations hmem with ⟨_, _, heq⟩ | ⟨_, h3, h4, _⟩
              · exact absurd heq (msg_ne_of_heads PStrue (heads_headerMsg _ _).2.2)
              · exact ⟨h3, by omega⟩
          · rcases mem_pascalViolations hmem with ⟨nm, heq⟩ | ⟨nm, heq⟩ | ⟨nm, heq⟩
            · exact absurd heq (msg_ne_of_heads PStrue (heads_structMsg _).2.2)
            · exact absurd heq (msg_ne_of_heads PStrue (heads_classMsg _).2.2)
            · exact absurd heq (msg_ne_of_heads PStrue (heads_enumMsg _).2.2)
        · rcases mem_classifyVarNames hmem with ⟨nm, heq⟩ | ⟨nm, heq⟩
          · exact absurd heq (msg_ne_of_heads PStrue (heads_tooShortMsg _).2.2)
          · exact absurd heq (msg_ne_of_heads PStrue (heads_varCamelMsg _).2.2)
      · obtain ⟨nm, heq⟩ := mem_functionViolations hmem
        exact absurd heq (msg_ne_of_heads PStrue (heads_funcMsg _).2.2)
    · rintro ⟨h3, h4⟩
      have hH : isHeaderPath fp = false := by
        cases hh : isHeaderPath fp with
        | false => rfl
        | true =>
            rw [header_not_source fp hh] at h3
            exact Bool.noConfusion h3
      have htc : typeCountViolations fp content
          = [sourceMsg (all_types_of content).length (all_types_of content)] := by
        unfold typeCountViolations
        rw [if_neg (by rw [hH]; exact Bool.noConfusion), if_pos h3,
          if_pos (by omega : 0 < (all_types_of content).length)]
      rw [hsplit]
      simp [htc, List.mem_append]

/-- Counterexample to C1 as stated: `a.hpp` is a header, the empty content
yields zero extracted top-level types, yet `check_file` emits no violation at
all - a zero-type header is not flagged. -/
theorem C1_counterexample :
    isHeaderPath "a.hpp".data = true ∧ all_types_of ([] : List Char) = []
    ∧ check_file "a.hpp".data [] = [] := by decide

/-- C9: `check_file` emits exactly one length violation - the message citing
the computed line count (newline count plus one, source line 131) - when that
count exceeds 1000, and none otherwise. -/
theorem C9_length_rule :
    ∀ (fp content : List Char),
    List.countP (hasPrefixL "File has ".data) (check_file fp content)
      = (if 1000 < lineCount content then 1 else 0)
    ∧ (lengthMsg (lineCount content) ∈ check_file fp content
        ↔ 1000 < lineCount content) := by
  intro fp content
  have hsplit : check_file fp content
      = lengthViolations content ++ fileNameViolations fp
        ++ typeCountViolations fp content ++ pascalViolations content
        ++ variableViolations content ++ functionViolations content := rfl
  constructor
  · rw [hsplit]
    simp only [List.countP_append]
    rw [countP_lengthViolations_main,
        countP_fileNameViolations_zero (fun fn => (heads_fileNameMsg fn).1),
        countP_pascalViolations_zero (fun nm => (heads_structMsg nm).1)
          (fun nm => (heads_classMsg nm).1) (fun nm => (heads_enumMsg nm).1),
        countP_variableViolations_zero (fun nm => (heads_tooShortMsg nm).1)
          (fun nm => (heads_varCamelMsg nm).1),
        countP_functionViolations_zero (fun nm => (heads_funcMsg nm).1)]
    have htc : List.countP (hasPrefixL "File has ".data) (typeCountViolations fp content)
        = 0 := by
      refine countP_eq_zero_of_shapes (fun a ha => ?_)
      rcases mem_typeCountViolations ha with ⟨_, _, heq⟩ | ⟨_, _, _, heq⟩ <;> rw [heq]
      · exact (heads_headerMsg _ _).1
      · exact (heads_sourceMsg _ _).1
    rw [htc]
    simp
  · have PFtrue := (heads_lengthMsg (lineCount content)).1
    constructor
    · intro hmem
      rw [hsplit] at hmem
      rcases List.mem_append.1 hmem with hmem | hmem
      · rcases List.mem_append.1 hmem with hmem | hmem
        · rcases List.mem_append.1 hmem with hmem | hmem
          · rcases List.mem_append.1 hmem with hmem | hmem
            · rcases List.mem_append.1 hmem with hmem | hmem
              · exact (mem_lengthViolations hmem).2
              · exact absurd (mem_fileNameViolations hmem)
                  (msg_ne_of_heads PFtrue (heads_fileNameMsg _).1)
            · rcases mem_typeCountViolations hmem with ⟨_, _, heq⟩ | ⟨_, _, _, heq⟩
              · exact absurd heq (msg_ne_of_heads PFtrue (heads_headerMsg _ _).1)
              · exact absurd heq (msg_ne_of_heads PFtrue (heads_sourceMsg _ _).1)
          · rcases mem_pascalViolations hmem with ⟨nm, heq⟩ | ⟨nm, heq⟩ | ⟨nm, heq⟩
            · exact absurd heq (msg_ne_of_heads PFtrue (heads_structMsg _).1)
            · exact absurd heq (msg_ne_of_heads PFtrue (heads_classMsg _).1)
            · exact absurd heq (msg_ne_of_heads PFtrue (heads_enumMsg _).1)
        · rcases mem_classifyVarNames hmem with ⟨nm, heq⟩ | ⟨nm, heq⟩
          · exact absurd heq (msg_ne_of_heads PFtrue (heads_tooShortMsg _).1)
          · exact absurd heq (msg_ne_of_heads PFtrue (heads_varCamelMsg _).1)
      · obtain ⟨nm, heq⟩ := mem_functionViolations hmem
        exact absurd heq (msg_ne_of_heads PFtrue (heads_funcMsg _).1)
    · intro hlt
      have hlv : lengthViolations content = [lengthMsg (lineCount content)] := by
        unfold lengthViolations
        rw [if_pos hlt]
      rw [hsplit]
      simp [hlv, List.mem_append]

/-- C4: a name is extracted by `find_definitions` exactly when some match of
the pattern captures it, the matched text's final character is `{` or `:` (so
a bare forward declaration ending in `;` contributes nothing), and the match
starts at type nesting depth 0; the combined struct+class+enum list is then
deduplicated by name preserving first-seen order (the seen-set loop equals the
reference first-occurrence dedup). -/
theorem C4_find_definitions :
    ∀ (content : List Char) (pat : RE) (name : List Char),
    (pat = STRUCT_PATTERN ∨ pat = CLASS_PATTERN ∨ pat = ENUM_PATTERN) →
    (name ∈ find_definitions content pat ↔
      ∃ m ∈ reFinditer pat content,
        matchGroup1 content m = name
        ∧ ((matchGroup0 content m).getLastD ' ' = '\x7b'
            ∨ (matchGroup0 content m).getLastD ' ' = ':')
        ∧ get_type_nesting_depth content m.start = 0)
    ∧ (∀ l : List (List Char), dedupFirstAux l [] = firstDedup l)
    ∧ find_definitions "struct Foo;".data STRUCT_PATTERN = [] := by
  intro content pat name _
  refine ⟨?_, dedupFirst_eq_firstDedup, by decide⟩
  simp only [find_definitions, List.mem_flatMap]
  constructor
  · rintro ⟨m, hm, hin⟩
    refine ⟨m, hm, ?_⟩
    revert hin
    split_ifs with h1 h2
    · intro hin
      exact ⟨(List.mem_singleton.1 hin).symm, (oneOf_braceColon _).1 h1, h2⟩
    · intro hin
      simp at hin
    · intro hin
      simp at hin
  · rintro ⟨m, hm, hname, hend, hdepth⟩
    refine ⟨m, hm, ?_⟩
    rw [if_pos ((oneOf_braceColon _).2 hend), if_pos hdepth]
    exact List.mem_singleton.2 hname.symm

/-- Witness for C4: the extraction characterisation instantiated at the
forward declaration `struct Foo;` with the struct pattern. -/
theorem C4_witness :
    "Foo".data ∈ find_definitions "struct Foo;".data STRUCT_PATTERN ↔
      ∃ m ∈ reFinditer STRUCT_PATTERN "struct Foo;".data,
        matchGroup1 "struct Foo;".data m = "Foo".data
        ∧ ((matchGroup0 "struct Foo;".data m).getLastD ' ' = '\x7b'
            ∨ (matchGroup0 "struct Foo;".data m).getLastD ' ' = ':')
        ∧ get_type_nesting_depth "struct Foo;".data m.start = 0 :=
  (C4_find_definitions "struct Foo;".data STRUCT_PATTERN "Foo".data (Or.inl rfl)).1

/-- C6: a function-pattern match produces no violation under any of the
exemptions (name equal to an extracted type name, leading `~`, out-of-line
constructor text `Name::Name(` with or without a space, exactly `main`, or a
name starting with `operator`); a non-exempt match is flagged exactly when its
name is not camelCase. In particular `Foo::Foo(int x){}` in a source file
where `Foo` is a known type yields no function-naming violation. -/
theorem C6_function_exemptions :
    ∀ (all_types : List (List Char)) (content : List Char) (m : RMatch),
    m ∈ reFinditer FUNCTION_PATTERN content →
    (funcExempt all_types content m → funcMatchViolation all_types content m = [])
    ∧ (¬ funcExempt all_types content m →
        funcMatchViolation all_types content m
          = if is_camel_case (matchGroup1 content m) = true then []
            else [funcMsg (matchGroup1 content m)])
    ∧ List.countP (hasPrefixL "Function '".data)
        (check_file "a.cpp".data "struct Foo\x7b\x7d;\nFoo::Foo(int x)\x7b\x7d".data)
      = 0 := by
  intro all_types content m _
  refine ⟨?_, ?_, by decide⟩
  · intro hex
    unfold funcExempt at hex
    simp only [funcMatchViolation]
    split_ifs with h1 h2 h3 h4 h5 <;> try rfl
    exfalso
    rcases hex with h | h | h | h | h | h
    · exact h1 (Or.inl h)
    · exact h1 (Or.inr h)
    · exact h2 (Or.inl h)
    · exact h2 (Or.inr h)
    · exact h3 h
    · exact h4 h
  · intro hnex
    unfold funcExempt at hnex
    push_neg at hnex
    obtain ⟨hn1, hn2, hn3, hn4, hn5, hn6⟩ := hnex
    simp only [funcMatchViolation]
    have c1 : ¬(matchGroup1 content m ∈ all_types
        ∨ hasPrefixL "~".data (matchGroup1 content m) = true) :=
      fun h => h.elim hn1 hn2
    have c2 : ¬(containsSub (matchGroup0 content m)
          (matchGroup1 content m ++ "::".data ++ matchGroup1 content m ++ "(".data) = true
        ∨ containsSub (matchGroup0 content m)
          (matchGroup1 content m ++ "::".data ++ matchGroup1 content m ++ " (".data)
            = true) :=
      fun h => h.elim hn3 hn4
    rw [if_neg c1, if_neg c2, if_neg hn5, if_neg hn6]

/-- Witness for C6: the out-of-line constructor `Foo::Foo(x){` is a real match
of the function pattern and is exempt via the constructor-text rule. -/
theorem C6_witness :
    funcMatchViolation [] "Foo::Foo(x)\x7b".data ⟨0, 12, some (5, 8)⟩ = [] :=
  (C6_function_exemptions [] "Foo::Foo(x)\x7b".data ⟨0, 12, some (5, 8)⟩
      (by decide)).1
    (Or.inr (Or.inr (Or.inl (by decide))))
